import Mathlib

/-!
Verification development for the gitzip archive synchronization engine.

The embedding models the metadata directory (the .git directory) as a flat
association list from relative paths to entries (files with byte contents,
or directories), together with an optional archive file (gitzip.tgz) whose
content is the list of entries it folds up.  The tar codec itself is
external to the program; it is modelled as the identity on entry lists,
with an explicit failure mode for the write (CodecError path).

Sources embedded:
- do_pack, do_unpack, do_wrapped_subcommand from gitzip/commands/git_zip.py;
- git_get_root_directory, git_get_gitzip_file from gitzip/lib/gitutil.py.
-/

namespace GitZip

/-- A filesystem path, as a list of components.  Relative paths are relative
to the metadata directory root; absolute paths start at the filesystem root. -/
abbrev Path : Type := List String

/-- A last-modified timestamp (st_mtime), abstracted to a natural number. -/
abbrev Mtime : Type := Nat

/-- One filesystem entry inside the metadata directory: a regular file with
its byte content, or a directory (possibly empty). -/
inductive Entry where
  | file (content : List Nat)
  | dir
deriving DecidableEq

/-- State of the metadata directory (.git): the non-archive entries, keyed by
relative path (the full recursive tree listing, as produced by glob), and
the archive file gitzip.tgz if present, holding the entry list it encodes. -/
structure GitDir where
  entries : List (Path × Entry)
  archive : Option (List (Path × Entry))
deriving DecidableEq

/-- The metadata directory is in packed state exactly when the archive file
gitzip.tgz exists in it. -/
def GitDir.isPacked (d : GitDir) : Bool := d.archive.isSome

/-- Association-list lookup by path, modelling a Python dict lookup. -/
def alookup {β : Type} (m : List (Path × β)) (p : Path) : Option β :=
  match m with
  | [] => none
  | q :: tl => if q.1 = p then some q.2 else alookup tl p

/-- Outcome of the external tar czvf call inside do_pack: either the archive
write fully succeeds, or check_call raises CalledProcessError, leaving
whatever bytes tar managed to write (possibly nothing) at the archive path. -/
inductive TarWrite where
  | ok
  | fails (written : Option (List (Path × Entry)))

/-- Result of do_pack: clean precondition failure (exit 1), a propagated
CalledProcessError from the tar write, or success (exit 0). -/
inductive PackOutcome where
  | alreadyPacked (final : GitDir)
  | codecError (final : GitDir)
  | ok (final : GitDir)
deriving DecidableEq

/-- Final metadata-directory state of a pack outcome. -/
def PackOutcome.final : PackOutcome → GitDir
  | .alreadyPacked d => d
  | .codecError d => d
  | .ok d => d

/-- Process exit code of a pack outcome; none when an exception propagates
instead of a clean exit. -/
def PackOutcome.exitCode : PackOutcome → Option Nat
  | .alreadyPacked _ => some 1
  | .codecError _ => none
  | .ok _ => some 0

/-- Embeds do_pack (git_zip.py lines 62 to 112): if gitzip.tgz exists, log
and exit 1 with nothing touched; otherwise list the current entries, write
all of them into the archive via tar (write-before-delete: the originals are
only deleted after check_call returns successfully), then delete them. -/
def do_pack (tar : TarWrite) (d : GitDir) : PackOutcome :=
  if d.archive.isSome then
    .alreadyPacked d
  else
    let entries_to_add := d.entries
    match tar with
    | .fails written => .codecError ⟨d.entries, written⟩
    | .ok => .ok ⟨[], some entries_to_add⟩

/-- Embeds tar xzvf extraction into a directory: archived entries are
written (overwriting clashes), entries not in the archive are kept. -/
def extractInto (existing archived : List (Path × Entry)) : List (Path × Entry) :=
  archived ++ existing.filter (fun q => (alookup archived q.1).isNone)

/-- Result of do_unpack: clean precondition failure (exit 1) or success. -/
inductive UnpackOutcome where
  | notPacked (final : GitDir)
  | ok (final : GitDir)
deriving DecidableEq

/-- Final metadata-directory state of an unpack outcome. -/
def UnpackOutcome.final : UnpackOutcome → GitDir
  | .notPacked d => d
  | .ok d => d

/-- Process exit code of an unpack outcome. -/
def UnpackOutcome.exitCode : UnpackOutcome → Option Nat
  | .notPacked _ => some 1
  | .ok _ => some 0

/-- Embeds do_unpack (git_zip.py lines 115 to 153): if gitzip.tgz does not
exist, log and exit 1 with nothing touched; otherwise extract the archive
into the metadata directory and unlink the archive file. -/
def do_unpack (d : GitDir) : UnpackOutcome :=
  match d.archive with
  | none => .notPacked d
  | some ents => .ok ⟨extractInto d.entries ents, none⟩

/-- The ephemeral unpacked metadata directory: entries with their mtimes. -/
abbrev Ephem : Type := List (Path × Entry × Mtime)

/-- Embeds the dict comprehension over temp_repo.glob (git_zip.py lines
196 to 199 and 203 to 206): the path to mtime mapping of the ephemeral
metadata directory, taken without mutating anything. -/
def snapshot (e : Ephem) : List (Path × Mtime) :=
  e.map (fun q => (q.1, q.2.2))

/-- The entry content of the ephemeral metadata directory, forgetting
mtimes; this is what repacking it archives. -/
def contentOf (e : Ephem) : List (Path × Entry) :=
  e.map (fun q => (q.1, q.2.1))

/-- Embeds copying the real archive into the ephemeral location and running
git zip unpack there: the archived entries appear on disk, with mtimes
assigned by the extraction (a parameter of the model). -/
def materialize (initM : Path → Mtime) (content : List (Path × Entry)) : Ephem :=
  content.map (fun q => (q.1, q.2, initM q.1))

/-- The iteration domain of the change-detection loop (git_zip.py line 220):
the union of the path sets of the two snapshots.  The source sorts this set;
sorting only affects log order, not the computed flag, and is omitted. -/
def unionPaths (b a : List (Path × Mtime)) : List Path :=
  (b.map Prod.fst ++ a.map Prod.fst).dedup

/-- One iteration of the change-detection loop body (git_zip.py lines 221
to 231): a path is flagged when absent from the before snapshot, absent
from the after snapshot, or present in both with differing mtimes. -/
def pathChanged (b a : List (Path × Mtime)) (p : Path) : Bool :=
  if (alookup b p).isNone then true
  else if (alookup a p).isNone then true
  else decide (alookup b p ≠ alookup a p)

/-- Embeds the repository_has_changed flag computation (git_zip.py lines
219 to 231): fold of the loop body over the union of the path sets. -/
def repositoryHasChanged (b a : List (Path × Mtime)) : Bool :=
  (unionPaths b a).foldl (fun flag p => if pathChanged b a p then true else flag) false

/-- Modelled from the spec: the added set of ChangeDetector.diff, the paths
present only in the after snapshot. -/
def diffAdded (b a : List (Path × Mtime)) : List Path :=
  (a.map Prod.fst).filter (fun p => decide (p ∉ b.map Prod.fst))

/-- Modelled from the spec: the removed set of ChangeDetector.diff, the
paths present only in the before snapshot. -/
def diffRemoved (b a : List (Path × Mtime)) : List Path :=
  (b.map Prod.fst).filter (fun p => decide (p ∉ a.map Prod.fst))

/-- Modelled from the spec: the modified set of ChangeDetector.diff, the
paths present in both snapshots with differing timestamps. -/
def diffModified (b a : List (Path × Mtime)) : List Path :=
  (b.map Prod.fst).filter
    (fun p => decide (p ∈ a.map Prod.fst) && decide (alookup b p ≠ alookup a p))

/-- The real archive file: its mtime (the concurrency token source) and the
entry list its bytes encode. -/
structure Archive where
  mtime : Mtime
  content : List (Path × Entry)
deriving DecidableEq

/-- The fatal conditions of do_wrapped_subcommand, each reported via exit 1:
missing archive at entry, archive removed by another actor, archive mtime
changed by another actor. -/
inductive FatalKind where
  | notPacked
  | externalRemoval
  | externalModification
deriving DecidableEq

/-- Observable outcome of one do_wrapped_subcommand invocation: the process
exit code, which fatal condition fired (if any), the real archive file at
the end, whether git zip pack was invoked on the ephemeral copy, and
whether the real archive was replaced by the ephemeral one. -/
structure WrapResult where
  exit : Int
  fatal : Option FatalKind
  real : Option Archive
  packCalled : Bool
  replaced : Bool
deriving DecidableEq

/-- Environment of one do_wrapped_subcommand invocation: whether the wrapped
argv starts with zip (nested gitzip command, which bypasses the concurrency
guard), the effect of the wrapped git command on the ephemeral metadata
directory together with its exit status, the mtimes the unpack extraction
assigns, the real archive file as found when re-examined after the wrapped
command (modelling concurrent external actors), and the mtime carried by a
freshly repacked archive. -/
structure WrapEnv where
  isZip : Bool
  run : Ephem → Ephem × Int
  initMtime : Path → Mtime
  realAtGuard : Option Archive
  packMtime : Mtime

/-- Embeds do_wrapped_subcommand (git_zip.py lines 156 to 241): require the
real archive to exist (else exit 1) and read its mtime as the concurrency
token; unpack a copy into an ephemeral directory; snapshot; run the wrapped
git command against the ephemeral copy; snapshot again; unless the wrapped
command was a zip command, re-examine the real archive and exit 1 if it was
removed or its mtime differs from the token; then, if the two snapshots
differ, repack the ephemeral copy and atomically replace the real archive
with it; finally the wrapped command exit status becomes the process exit
status. -/
def do_wrapped (env : WrapEnv) (real0 : Option Archive) : WrapResult :=
  match real0 with
  | none => ⟨1, some .notPacked, none, false, false⟩
  | some arch =>
    let ephem0 : Ephem := materialize env.initMtime arch.content
    let res := env.run ephem0
    let guardFail : Option FatalKind :=
      if env.isZip then none
      else
        match env.realAtGuard with
        | none => some .externalRemoval
        | some arch2 =>
          if arch.mtime = arch2.mtime then none else some .externalModification
    match guardFail with
    | some k => ⟨1, some k, env.realAtGuard, false, false⟩
    | none =>
      if repositoryHasChanged (snapshot ephem0) (snapshot res.1) then
        ⟨res.2, none, some ⟨env.packMtime, contentOf res.1⟩, true, true⟩
      else
        ⟨res.2, none, env.realAtGuard, false, false⟩

/-- Embeds git_get_root_directory (gitutil.py lines 11 to 49): walk upward
from the current directory until a directory containing a .git entry is
found; at the filesystem root (the empty path) return none.  The hasGit
predicate models which directories of the filesystem contain a .git entry. -/
def git_get_root_directory (hasGit : List String → Bool) (cur : List String) :
    Option (List String) :=
  if hasGit cur then some cur
  else if h : cur = [] then none
  else git_get_root_directory hasGit cur.dropLast
  termination_by cur.length
  decreasing_by
    simp only [List.length_dropLast]
    have hpos : 0 < cur.length := List.length_pos.mpr h
    omega

/-- Embeds git_get_gitzip_file (gitutil.py lines 52 to 60): the expected
archive path under the located root, or none when no root is found. -/
def git_get_gitzip_file (hasGit : List String → Bool) (cwd : List String) :
    Option (List String) :=
  (git_get_root_directory hasGit cwd).map (fun root => root ++ [".git", "gitzip.tgz"])

/-- Outcome of the common prelude of do_pack, do_unpack and
do_wrapped_subcommand: an unhandled AttributeError from calling .exists()
on a None result of git_get_gitzip_file, a clean precondition exit 1, or
continuation into the command body with the resolved archive path. -/
inductive PyOutcome where
  | attributeError
  | exit1
  | proceeds (gitzipPath : List String)
deriving DecidableEq

/-- Embeds the shared prelude of the three commands: resolve the archive
path, then immediately call .exists() on the result (git_zip.py lines 91,
95 for pack; 142, 146 for unpack; 182, 183 for the wrapped command).  When
resolution produced None, the attribute access raises before any
precondition is reported.  Pack exits 1 when the file exists
(failIfExists true); unpack and the wrapped command exit 1 when it does
not (failIfExists false). -/
def command_prelude (failIfExists : Bool) (hasGit fileExists : List String → Bool)
    (cwd : List String) : PyOutcome :=
  match git_get_gitzip_file hasGit cwd with
  | none => .attributeError
  | some gz => if fileExists gz = failIfExists then .exit1 else .proceeds gz

/-- A command run, with its state threading: the body (which may mutate the
metadata directory) runs only when the prelude reaches it; on an
AttributeError or a precondition exit the state is returned untouched, as
in the source, where both happen before any mutating statement. -/
def command_with_state (failIfExists : Bool) (hasGit fileExists : List String → Bool)
    (cwd : List String) (body : List String → GitDir → GitDir) (d : GitDir) :
    PyOutcome × GitDir :=
  match command_prelude failIfExists hasGit fileExists cwd with
  | .proceeds gz => (.proceeds gz, body gz d)
  | o => (o, d)

/-! Helper lemmas about lookup, the change-detection fold and the union of
path sets. -/

theorem alookup_eq_none_iff {β : Type} (m : List (Path × β)) (p : Path) :
    alookup m p = none ↔ p ∉ m.map Prod.fst := by
  induction m with
  | nil =>
    exact iff_of_true rfl (List.not_mem_nil p)
  | cons q tl ih =>
    by_cases h : q.1 = p
    · have hmem : p ∈ List.map Prod.fst (q :: tl) := by
        rw [List.map_cons, ← h]
        exact List.mem_cons_self _ _
      simp only [alookup, if_pos h]
      exact iff_of_false (by simp) (fun hc => hc hmem)
    · have h2 : ¬p = q.1 := fun hh => h hh.symm
      simp only [alookup, if_neg h, List.map_cons, List.mem_cons]
      rw [ih]
      constructor
      · intro hn hc
        rcases hc with hc | hc
        · exact h2 hc
        · exact hn hc
      · intro hn hc
        exact hn (Or.inr hc)

theorem alookup_isSome_iff {β : Type} (m : List (Path × β)) (p : Path) :
    (alookup m p).isSome = true ↔ p ∈ m.map Prod.fst := by
  constructor
  · intro h
    by_contra hc
    rw [← alookup_eq_none_iff] at hc
    rw [hc] at h
    simp at h
  · intro h
    cases hs : alookup m p with
    | some v => rfl
    | none => exact absurd h ((alookup_eq_none_iff m p).mp hs)

theorem foldl_flag_eq_any (f : Path → Bool) (l : List Path) (flag : Bool) :
    l.foldl (fun acc p => if f p then true else acc) flag = (flag || l.any f) := by
  induction l generalizing flag with
  | nil => simp
  | cons p tl ih =>
    simp only [List.foldl_cons, List.any_cons]
    rw [ih]
    cases hf : f p <;> simp [hf]

theorem repositoryHasChanged_eq_any (b a : List (Path × Mtime)) :
    repositoryHasChanged b a = (unionPaths b a).any (pathChanged b a) := by
  unfold repositoryHasChanged
  rw [foldl_flag_eq_any, Bool.false_or]

theorem mem_unionPaths (b a : List (Path × Mtime)) (p : Path) :
    p ∈ unionPaths b a ↔ p ∈ b.map Prod.fst ∨ p ∈ a.map Prod.fst := by
  simp [unionPaths, List.mem_dedup, List.mem_append]

theorem repositoryHasChanged_self (s : List (Path × Mtime)) :
    repositoryHasChanged s s = false := by
  rw [repositoryHasChanged_eq_any, List.any_eq_false]
  intro p hp
  have hmem : p ∈ s.map Prod.fst := by
    rcases (mem_unionPaths s s p).mp hp with h | h <;> exact h
  obtain ⟨t, ht⟩ := Option.isSome_iff_exists.mp ((alookup_isSome_iff s p).mpr hmem)
  simp [pathChanged, ht]

/-! Claim theorems. -/

/-- C1: for every directory tree D (entry set E, including empty
subdirectories and zero-byte files), pack on a metadata directory in state
D succeeds and produces the packed state, and unpack on that packed state
reproduces exactly the entry set E: same path set, same file contents, same
nesting, with the archive gone again. -/
theorem pack_unpack_roundtrip (E : List (Path × Entry)) :
    do_pack .ok ⟨E, none⟩ = .ok ⟨[], some E⟩ ∧
    do_unpack ⟨[], some E⟩ = .ok ⟨E, none⟩ := by
  constructor
  · rfl
  · simp [do_unpack, extractInto]

/-- C5: pack on an already-packed directory exits 1 and leaves the whole
state unchanged, whatever the tar codec would have done; unpack on a
not-packed directory exits 1 and leaves the state unchanged; both exit 0 on
success. -/
theorem preconditions_enforced (E A : List (Path × Entry)) (tar : TarWrite) :
    do_pack tar ⟨E, some A⟩ = .alreadyPacked ⟨E, some A⟩ ∧
    (do_pack tar ⟨E, some A⟩).exitCode = some 1 ∧
    do_unpack ⟨E, none⟩ = .notPacked ⟨E, none⟩ ∧
    (do_unpack ⟨E, none⟩).exitCode = some 1 ∧
    (do_pack .ok ⟨E, none⟩).exitCode = some 0 ∧
    (do_unpack ⟨E, some A⟩).exitCode = some 0 := by
  refine ⟨rfl, rfl, rfl, rfl, rfl, rfl⟩

/-- C6: when the archive write fails, do_pack propagates the codec error
and has deleted no original entry: the final state still carries every
original entry, next to whatever bytes tar left at the archive path, so no
data is lost. -/
theorem pack_write_before_delete (E : List (Path × Entry))
    (w : Option (List (Path × Entry))) :
    do_pack (.fails w) ⟨E, none⟩ = .codecError ⟨E, w⟩ ∧
    (do_pack (.fails w) ⟨E, none⟩).exitCode = none ∧
    (do_pack (.fails w) ⟨E, none⟩).final.entries = E := by
  refine ⟨rfl, rfl, rfl⟩

/-- C8: after a successful pack the metadata directory holds no entry
besides the archive file, the archive holds exactly the previously present
entries (recursively, as the flat entry listing), and the directory is in
packed state, while the input state was not. -/
theorem pack_archive_only_entry (E : List (Path × Entry)) :
    (do_pack .ok ⟨E, none⟩).final.entries = [] ∧
    (do_pack .ok ⟨E, none⟩).final.archive = some E ∧
    ((do_pack .ok ⟨E, none⟩).final).isPacked = true ∧
    (GitDir.mk E none).isPacked = false := by
  refine ⟨rfl, rfl, rfl, rfl⟩

/-- C7: the change flag of the detection loop is true exactly when one of
the three diff sets is nonempty; the loop ranges over the union of the path
sets of the two snapshots, a path present in only one snapshot is
classified added (only in after) or removed (only in before), and a path
present in both with differing timestamps is classified modified. -/
theorem hasChanged_iff_diff (b a : List (Path × Mtime)) :
    (repositoryHasChanged b a = true ↔
      (diffAdded b a ≠ [] ∨ diffRemoved b a ≠ [] ∨ diffModified b a ≠ [])) ∧
    (∀ p, p ∈ diffAdded b a ↔ p ∈ a.map Prod.fst ∧ p ∉ b.map Prod.fst) ∧
    (∀ p, p ∈ diffRemoved b a ↔ p ∈ b.map Prod.fst ∧ p ∉ a.map Prod.fst) ∧
    (∀ p, p ∈ diffModified b a ↔
      p ∈ b.map Prod.fst ∧ p ∈ a.map Prod.fst ∧ ¬alookup b p = alookup a p) := by
  have hA : ∀ p, p ∈ diffAdded b a ↔ p ∈ a.map Prod.fst ∧ p ∉ b.map Prod.fst := by
    intro p
    simp [diffAdded, List.mem_filter]
  have hR : ∀ p, p ∈ diffRemoved b a ↔ p ∈ b.map Prod.fst ∧ p ∉ a.map Prod.fst := by
    intro p
    simp [diffRemoved, List.mem_filter]
  have hM : ∀ p, p ∈ diffModified b a ↔
      p ∈ b.map Prod.fst ∧ p ∈ a.map Prod.fst ∧ ¬alookup b p = alookup a p := by
    intro p
    simp [diffModified, List.mem_filter, and_assoc]
  refine ⟨?_, hA, hR, hM⟩
  rw [repositoryHasChanged_eq_any, List.any_eq_true]
  constructor
  · rintro ⟨p, hp, hflag⟩
    rw [mem_unionPaths] at hp
    by_cases hb : alookup b p = none
    · have hnb : p ∉ b.map Prod.fst := (alookup_eq_none_iff b p).mp hb
      have ha : p ∈ a.map Prod.fst := by
        rcases hp with hx | hx
        · exact absurd hx hnb
        · exact hx
      exact Or.inl (List.ne_nil_of_mem ((hA p).mpr ⟨ha, hnb⟩))
    · have hbm : p ∈ b.map Prod.fst := by
        by_contra hc
        exact hb ((alookup_eq_none_iff b p).mpr hc)
      by_cases ha : alookup a p = none
      · have hna : p ∉ a.map Prod.fst := (alookup_eq_none_iff a p).mp ha
        exact Or.inr (Or.inl (List.ne_nil_of_mem ((hR p).mpr ⟨hbm, hna⟩)))
      · have ham : p ∈ a.map Prod.fst := by
          by_contra hc
          exact ha ((alookup_eq_none_iff a p).mpr hc)
        have hbs : ¬(alookup b p).isNone = true :=
          fun hcc => hb (Option.isNone_iff_eq_none.mp hcc)
        have has : ¬(alookup a p).isNone = true :=
          fun hcc => ha (Option.isNone_iff_eq_none.mp hcc)
        have hne : ¬alookup b p = alookup a p := by
          unfold pathChanged at hflag
          rw [if_neg hbs, if_neg has] at hflag
          exact of_decide_eq_true hflag
        exact Or.inr (Or.inr (List.ne_nil_of_mem ((hM p).mpr ⟨hbm, ham, hne⟩)))
  · intro hne
    rcases hne with h | h | h
    · obtain ⟨p, hp⟩ := List.exists_mem_of_ne_nil _ h
      obtain ⟨ham, hnb⟩ := (hA p).mp hp
      refine ⟨p, (mem_unionPaths b a p).mpr (Or.inr ham), ?_⟩
      unfold pathChanged
      rw [if_pos (Option.isNone_iff_eq_none.mpr ((alookup_eq_none_iff b p).mpr hnb))]
    · obtain ⟨p, hp⟩ := List.exists_mem_of_ne_nil _ h
      obtain ⟨hbm, hna⟩ := (hR p).mp hp
      refine ⟨p, (mem_unionPaths b a p).mpr (Or.inl hbm), ?_⟩
      unfold pathChanged
      have hbs : ¬(alookup b p).isNone = true := by
        obtain ⟨v, hv⟩ := Option.isSome_iff_exists.mp ((alookup_isSome_iff b p).mpr hbm)
        simp [hv]
      rw [if_neg hbs,
        if_pos (Option.isNone_iff_eq_none.mpr ((alookup_eq_none_iff a p).mpr hna))]
    · obtain ⟨p, hp⟩ := List.exists_mem_of_ne_nil _ h
      obtain ⟨hbm, ham, hmod⟩ := (hM p).mp hp
      refine ⟨p, (mem_unionPaths b a p).mpr (Or.inl hbm), ?_⟩
      unfold pathChanged
      have hbs : ¬(alookup b p).isNone = true := by
        obtain ⟨v, hv⟩ := Option.isSome_iff_exists.mp ((alookup_isSome_iff b p).mpr hbm)
        simp [hv]
      have has : ¬(alookup a p).isNone = true := by
        obtain ⟨v, hv⟩ := Option.isSome_iff_exists.mp ((alookup_isSome_iff a p).mpr ham)
        simp [hv]
      rw [if_neg hbs, if_neg has]
      exact decide_eq_true hmod

/-- C9: the snapshot of a directory state is the mapping whose keys are
exactly the paths of the recursive walk, each key mapped to the
last-modified time of that entry; it is a pure function of the directory
state and mutates nothing. -/
theorem snapshot_covers (e : Ephem) :
    (snapshot e).map Prod.fst = e.map Prod.fst ∧
    (∀ p ent t, (p, ent, t) ∈ e → (p, t) ∈ snapshot e) ∧
    (∀ p t, (p, t) ∈ snapshot e → ∃ ent, (p, ent, t) ∈ e) := by
  refine ⟨?_, ?_, ?_⟩
  · simp [snapshot, List.map_map, Function.comp]
  · intro p ent t h
    exact List.mem_map.mpr ⟨(p, ent, t), h, rfl⟩
  · intro p t h
    obtain ⟨⟨qp, qe, qt⟩, hq, hEq⟩ := List.mem_map.mp h
    injection hEq with h1 h2
    subst h1
    subst h2
    exact ⟨qe, hq⟩

/-- C2: when the wrapped command is not a nested zip command, the real
archive is re-examined after the command: if it was removed the run exits 1
with the ExternalRemoval condition, and if its mtime differs from the
concurrency token the run exits 1 with the ExternalModification condition;
in both cases no pack and no replacement happen and the real archive is
left exactly as the other actor left it. -/
theorem wrapped_guard_protects (arch : Archive) (env : WrapEnv)
    (hzip : env.isZip = false)
    (hfail : env.realAtGuard = none ∨
      ∃ a2, env.realAtGuard = some a2 ∧ arch.mtime ≠ a2.mtime) :
    (do_wrapped env (some arch)).exit = 1 ∧
    (do_wrapped env (some arch)).fatal ≠ none ∧
    (do_wrapped env (some arch)).replaced = false ∧
    (do_wrapped env (some arch)).packCalled = false ∧
    (do_wrapped env (some arch)).real = env.realAtGuard ∧
    (env.realAtGuard = none →
      (do_wrapped env (some arch)).fatal = some FatalKind.externalRemoval) ∧
    (∀ a2, env.realAtGuard = some a2 →
      (do_wrapped env (some arch)).fatal = some FatalKind.externalModification) := by
  rcases hfail with hnone | ⟨a2, ha2, hneq⟩
  · have hred : do_wrapped env (some arch) =
        ⟨1, some FatalKind.externalRemoval, env.realAtGuard, false, false⟩ := by
      simp [do_wrapped, hzip, hnone]
    rw [hred]
    refine ⟨rfl, by simp, rfl, rfl, rfl, fun _ => rfl, ?_⟩
    intro a2 hc
    rw [hnone] at hc
    simp at hc
  · have hred : do_wrapped env (some arch) =
        ⟨1, some FatalKind.externalModification, env.realAtGuard, false, false⟩ := by
      simp [do_wrapped, hzip, ha2, hneq]
    rw [hred]
    refine ⟨rfl, by simp, rfl, rfl, rfl, ?_, fun _ _ => rfl⟩
    intro hc
    rw [ha2] at hc
    simp at hc

/-- Witness for wrapped_guard_protects: a run over an archive with mtime 0
and empty content, a wrapped no-op command, during which another actor
removed the real archive. -/
theorem wrapped_guard_protects_witness :
    (do_wrapped ⟨false, fun e => (e, 0), fun _ => 0, none, 0⟩ (some ⟨0, []⟩)).exit = 1 ∧
    (do_wrapped ⟨false, fun e => (e, 0), fun _ => 0, none, 0⟩ (some ⟨0, []⟩)).fatal ≠ none ∧
    (do_wrapped ⟨false, fun e => (e, 0), fun _ => 0, none, 0⟩ (some ⟨0, []⟩)).replaced = false ∧
    (do_wrapped ⟨false, fun e => (e, 0), fun _ => 0, none, 0⟩ (some ⟨0, []⟩)).packCalled = false ∧
    (do_wrapped ⟨false, fun e => (e, 0), fun _ => 0, none, 0⟩ (some ⟨0, []⟩)).real = none ∧
    ((none : Option Archive) = none →
      (do_wrapped ⟨false, fun e => (e, 0), fun _ => 0, none, 0⟩ (some ⟨0, []⟩)).fatal =
        some FatalKind.externalRemoval) ∧
    (∀ a2, (none : Option Archive) = some a2 →
      (do_wrapped ⟨false, fun e => (e, 0), fun _ => 0, none, 0⟩ (some ⟨0, []⟩)).fatal =
        some FatalKind.externalModification) :=
  wrapped_guard_protects ⟨0, []⟩ ⟨false, fun e => (e, 0), fun _ => 0, none, 0⟩ rfl
    (Or.inl rfl)

/-- C3: when the precondition and the concurrency guard pass, the run never
aborts on a nonzero wrapped exit status: the after snapshot, the change
detection and the conditional repack still run, the repack happens exactly
when the snapshots differ, and the wrapped exit status, zero or not, is
returned as the result of the whole run in either case. -/
theorem wrapped_exit_propagation (arch : Archive) (env : WrapEnv)
    (hguard : env.isZip = true ∨
      ∃ a2, env.realAtGuard = some a2 ∧ arch.mtime = a2.mtime) :
    (do_wrapped env (some arch)).fatal = none ∧
    (do_wrapped env (some arch)).exit =
      (env.run (materialize env.initMtime arch.content)).2 ∧
    (do_wrapped env (some arch)).packCalled =
      repositoryHasChanged (snapshot (materialize env.initMtime arch.content))
        (snapshot (env.run (materialize env.initMtime arch.content)).1) ∧
    (do_wrapped env (some arch)).replaced = (do_wrapped env (some arch)).packCalled := by
  have hred : do_wrapped env (some arch) =
      (if repositoryHasChanged (snapshot (materialize env.initMtime arch.content))
            (snapshot (env.run (materialize env.initMtime arch.content)).1) then
        (⟨(env.run (materialize env.initMtime arch.content)).2, none,
          some ⟨env.packMtime, contentOf (env.run (materialize env.initMtime arch.content)).1⟩,
          true, true⟩ : WrapResult)
      else
        ⟨(env.run (materialize env.initMtime arch.content)).2, none,
          env.realAtGuard, false, false⟩) := by
    rcases hguard with hz | ⟨a2, ha2, hm⟩
    · simp [do_wrapped, hz]
    · simp [do_wrapped, ha2, hm]
  cases hch : repositoryHasChanged (snapshot (materialize env.initMtime arch.content))
      (snapshot (env.run (materialize env.initMtime arch.content)).1) with
  | true =>
    rw [hred, if_pos hch]
    exact ⟨rfl, rfl, rfl, rfl⟩
  | false =>
    rw [hred, if_neg (by simp [hch])]
    exact ⟨rfl, rfl, rfl, rfl⟩

/-- Witness for wrapped_exit_propagation: a nested zip command (bypassing
the guard) that empties the ephemeral metadata directory and exits 7. -/
theorem wrapped_exit_propagation_witness :
    (do_wrapped ⟨true, fun _ => ([], 7), fun _ => 1, none, 9⟩
      (some ⟨5, [([String.mk [Char.ofNat 97]], Entry.file [])]⟩)).fatal = none ∧
    (do_wrapped ⟨true, fun _ => ([], 7), fun _ => 1, none, 9⟩
      (some ⟨5, [([String.mk [Char.ofNat 97]], Entry.file [])]⟩)).exit = 7 ∧
    (do_wrapped ⟨true, fun _ => ([], 7), fun _ => 1, none, 9⟩
      (some ⟨5, [([String.mk [Char.ofNat 97]], Entry.file [])]⟩)).packCalled =
      repositoryHasChanged
        (snapshot (materialize (fun _ => 1) [([String.mk [Char.ofNat 97]], Entry.file [])]))
        (snapshot ([] : Ephem)) ∧
    (do_wrapped ⟨true, fun _ => ([], 7), fun _ => 1, none, 9⟩
      (some ⟨5, [([String.mk [Char.ofNat 97]], Entry.file [])]⟩)).replaced =
    (do_wrapped ⟨true, fun _ => ([], 7), fun _ => 1, none, 9⟩
      (some ⟨5, [([String.mk [Char.ofNat 97]], Entry.file [])]⟩)).packCalled :=
  wrapped_exit_propagation ⟨5, [([String.mk [Char.ofNat 97]], Entry.file [])]⟩
    ⟨true, fun _ => ([], 7), fun _ => 1, none, 9⟩ (Or.inl rfl)

/-- C4: when the wrapped command leaves the before and after snapshots of
the ephemeral metadata directory equal and no other actor touched the real
archive, the run invokes no pack, performs no replacement, and leaves the
real archive with its original bytes and mtime. -/
theorem wrapped_noop_stability (arch : Archive) (env : WrapEnv)
    (hreal : env.realAtGuard = some arch)
    (hsnap : snapshot (env.run (materialize env.initMtime arch.content)).1 =
      snapshot (materialize env.initMtime arch.content)) :
    do_wrapped env (some arch) =
      ⟨(env.run (materialize env.initMtime arch.content)).2, none, some arch,
        false, false⟩ := by
  have hch : repositoryHasChanged (snapshot (materialize env.initMtime arch.content))
      (snapshot (env.run (materialize env.initMtime arch.content)).1) = false := by
    rw [hsnap]
    exact repositoryHasChanged_self _
  simp [do_wrapped, hreal, hch]

/-- Witness for wrapped_noop_stability: a wrapped read-only command over an
archive holding one file; the archive keeps its bytes and its mtime 3. -/
theorem wrapped_noop_stability_witness :
    do_wrapped
        ⟨false, fun e => (e, 0), fun _ => 2,
          some ⟨3, [([String.mk [Char.ofNat 102]], Entry.file [1])]⟩, 7⟩
        (some ⟨3, [([String.mk [Char.ofNat 102]], Entry.file [1])]⟩) =
      ⟨0, none, some ⟨3, [([String.mk [Char.ofNat 102]], Entry.file [1])]⟩,
        false, false⟩ :=
  wrapped_noop_stability ⟨3, [([String.mk [Char.ofNat 102]], Entry.file [1])]⟩
    ⟨false, fun e => (e, 0), fun _ => 2,
      some ⟨3, [([String.mk [Char.ofNat 102]], Entry.file [1])]⟩, 7⟩ rfl rfl

/-- Auxiliary for C10: when no directory on the upward walk from cwd
contains a .git entry, the root resolution returns none.  The walk visits
exactly the prefixes of cwd, so the hypothesis quantifies over take. -/
theorem rootDir_none_of_no_git (hasGit : List String → Bool) :
    ∀ (k : Nat) (cwd : List String), cwd.length ≤ k →
      (∀ n, hasGit (cwd.take n) = false) →
      git_get_root_directory hasGit cwd = none := by
  intro k
  induction k with
  | zero =>
    intro cwd hlen h
    have hc : cwd = [] := List.length_eq_zero.mp (Nat.le_zero.mp hlen)
    subst hc
    have h0 : hasGit [] = false := h 0
    unfold git_get_root_directory
    simp [h0]
  | succ k ih =>
    intro cwd hlen h
    have h0 : hasGit cwd = false := by
      have hx := h cwd.length
      rwa [List.take_length] at hx
    unfold git_get_root_directory
    rw [if_neg (by simp [h0])]
    by_cases hc : cwd = []
    · rw [dif_pos hc]
    · rw [dif_neg hc]
      refine ih _ ?_ ?_
      · rw [List.length_dropLast]
        have hpos : 0 < cwd.length := List.length_pos.mpr hc
        omega
      · intro n
        rw [List.dropLast_eq_take, List.take_take]
        exact h _

/-- C10: invoked from a working directory with no enclosing repository root
(no prefix of the working directory contains a .git entry), the resolution
helper returns none, and every one of the three commands then calls the
exists attribute on that none before reporting any precondition, so it
terminates with an unhandled AttributeError instead of a clean exit 1, and
the metadata directory state is left untouched. -/
theorem no_repo_root_raises (hasGit fileExists : List String → Bool)
    (cwd : List String)
    (h : ∀ n, hasGit (cwd.take n) = false) :
    git_get_gitzip_file hasGit cwd = none ∧
    (∀ failIfExists, command_prelude failIfExists hasGit fileExists cwd =
      PyOutcome.attributeError) ∧
    (∀ failIfExists (body : List String → GitDir → GitDir) (d : GitDir),
      (command_with_state failIfExists hasGit fileExists cwd body d).2 = d) := by
  have hroot : git_get_root_directory hasGit cwd = none :=
    rootDir_none_of_no_git hasGit cwd.length cwd (Nat.le_refl _) h
  have hgz : git_get_gitzip_file hasGit cwd = none := by
    rw [git_get_gitzip_file, hroot]
    rfl
  refine ⟨hgz, ?_, ?_⟩
  · intro fie
    simp [command_prelude, hgz]
  · intro fie body d
    simp [command_with_state, command_prelude, hgz]

/-- Witness for no_repo_root_raises: a filesystem with no .git anywhere,
working directory two levels below the root. -/
theorem no_repo_root_raises_witness :
    git_get_gitzip_file (fun _ => false) [String.mk [], String.mk []] = none ∧
    (∀ failIfExists, command_prelude failIfExists (fun _ => false) (fun _ => false)
      [String.mk [], String.mk []] = PyOutcome.attributeError) ∧
    (∀ failIfExists (body : List String → GitDir → GitDir) (d : GitDir),
      (command_with_state failIfExists (fun _ => false) (fun _ => false)
        [String.mk [], String.mk []] body d).2 = d) :=
  no_repo_root_raises (fun _ => false) (fun _ => false) [String.mk [], String.mk []]
    (fun _ => rfl)

end GitZip
